import Mathlib

/-!
Verification of the structural-diff library (visitor-based difference
detection, counting, and recording) against its specification.

The embedding models the universe of values reachable through the library's
built-in `Diff` implementations (`impls.rs`, `std_impls.rs`) as an inductive
type `DValue`, and translates each difference consumer from the source:

* `detect.rs` — `any_difference` (the `Any` accumulator) and `all_different`
  (the `All` accumulator with its `all`/`any` pair);
* `detect_all.rs` — the counting variant of `all_different` (`DiffCounter`);
* `record.rs` — `record_diff` producing the structured `Value` tree.

Rust guarantees that the two operands of a comparison have the same type, so
cross-shape pairs of `DValue`s never arise from real programs; every match
below ends with the catch-all arm that models the `_ => out.difference(a, b)`
branch of the enum-style `Diff` impls (for enums of the same type with
different variants it is the genuine source behaviour; for cross-shape pairs
it is dead code).
-/

namespace VisitRust

/--
Universe of values of types with built-in `Diff` implementations.

* `atom` models the `impl_diff_partial_eq!` family (`bool`, integers, `char`,
  `str`, `String`, `Ordering`, `Duration`, ranges, floats...): the value is
  compared with `PartialEq` (`a != b`) and rendered through `Debug` as `text`.
  `key` identifies the `PartialEq`-equivalence class of the value; `selfEq`
  records whether the value is equal to itself under `PartialEq`.  For every
  atomic type except `f32`/`f64` the relation is reflexive (`selfEq = true`);
  an IEEE NaN of `f32`/`f64` satisfies `NaN != NaN`, which is `selfEq =
  false`.
* `unitV` models `()` and `PhantomData`, whose impls call `out.same`
  unconditionally.
* `ptr` models `*const T` / `*mut T`: comparison looks only at the address
  (`if a != b { out.difference } else { out.same }`); the pointee is carried
  in the model to express that traversal never reaches it.
* `newtype` models impls that call `out.diff_newtype(name, a, b)`.
* `structV` / `tupleV` model struct and tuple walks (`begin_struct` /
  `begin_tuple` followed by `diff_field` per declared field, then `end`).
* `enumUnitV` / `enumStructV` / `enumTupleV` model the three variant shapes of
  an enum; `tag` is the discriminant.  Equal tags walk the payload through
  `begin_struct_variant` / `begin_tuple_variant` (unit variants call
  `out.same`); different tags hit the `_ => out.difference(a, b)` arm.
* `seqV` models slices, arrays, `Vec`, `VecDeque`, ... : `begin_seq` then
  `diff_elements` (positional zip-longest pairing).
* `mapV` models `BTreeMap` (entries sorted by key, keys embedded as `Nat`):
  `begin_map` then a `merge_join_by` loop dispatching `diff_entry` /
  `only_in_left` / `only_in_right`.
* `setV` models `BTreeSet` (elements sorted by their `Ord` key, carried as the
  first component): `begin_set` then a `merge_join_by` loop dispatching
  `diff_equal` / `only_in_left` / `only_in_right`.
-/
inductive DValue : Type where
  | atom (key : Nat) (selfEq : Bool) (text : String)
  | unitV
  | ptr (addr : Nat) (pointee : DValue)
  | newtype (name : String) (inner : DValue)
  | structV (name : String) (fields : List (String × DValue))
  | tupleV (name : String) (fields : List DValue)
  | enumUnitV (ty : String) (tag : Nat) (vname : String)
  | enumStructV (ty : String) (tag : Nat) (vname : String)
      (fields : List (String × DValue))
  | enumTupleV (ty : String) (tag : Nat) (vname : String)
      (fields : List DValue)
  | seqV (elems : List DValue)
  | mapV (entries : List (Nat × DValue))
  | setV (elems : List (Nat × DValue))

/-- `PartialEq` on two atomic values: equal non-NaN values share a `key`;
a non-self-equal value (NaN) compares unequal to everything, itself
included. -/
def atomEqb (k1 : Nat) (e1 : Bool) (k2 : Nat) (e2 : Bool) : Bool :=
  e1 && e2 && (k1 == k2)

/-- Embedding of a Rust `bool` (`impl_diff_partial_eq!(bool)`). -/
def boolV (b : Bool) : DValue :=
  .atom (if b then 1 else 0) true (if b then "true" else "false")

/-- Embedding of a Rust `usize`/`u32`/... value (`impl_diff_partial_eq!`). -/
def natV (n : Nat) : DValue :=
  .atom n true (Nat.repr n)

/-- Embedding of `f32::NAN`: `PartialEq` on floats is not reflexive at NaN,
so `NaN != NaN` holds and the `impl_diff_partial_eq!(f32)` impl reports a
difference even when both sides are the very same value. -/
def nanV : DValue := .atom 0 false "NaN"

/-- `Debug` rendering of a raw pointer: the address, never the pointee. -/
def ptrText (addr : Nat) : String := "0x" ++ Nat.repr addr

mutual

/--
`any_difference(a, b)` from `detect.rs`: runs `Diff::diff(a, b,
Detector::<Any>::default())` and unwraps the `Void` error.  `Detector::same`
returns `Ok(false)`, `Detector::difference` returns `Ok(true)`,
`diff_newtype` recurses, and each composite shape folds the `Any(bool)`
accumulator over its parts.
-/
def anyDifference : DValue → DValue → Bool
  | .atom k1 e1 _, .atom k2 e2 _ =>
    if atomEqb k1 e1 k2 e2 then false else true
  | .unitV, .unitV => false
  | .ptr a1 _, .ptr a2 _ => if a1 == a2 then false else true
  | .newtype _ a, .newtype _ b => anyDifference a b
  | .structV _ fs, .structV _ gs => anyNamed false fs gs
  | .tupleV _ fs, .tupleV _ gs => anyPlain false fs gs
  | .enumUnitV _ t1 _, .enumUnitV _ t2 _ => if t1 == t2 then false else true
  | .enumStructV _ t1 _ fs, .enumStructV _ t2 _ gs =>
    if t1 == t2 then anyNamed false fs gs else true
  | .enumTupleV _ t1 _ fs, .enumTupleV _ t2 _ gs =>
    if t1 == t2 then anyPlain false fs gs else true
  | .seqV xs, .seqV ys => anySeqEx xs ys
  | .mapV l, .mapV r => anyMerge false l r
  | .setV l, .setV r => anyMerge false l r
  | _, _ => true
termination_by a b => sizeOf a + sizeOf b
decreasing_by all_goals (simp_wf; try omega)

/-- `StructDiffer for StructDetector<Any>`: each `diff_field` runs
`Any::consider`, i.e. `if !self.0 { self.0 = any_difference(a, b) }`; the
walk visits the declared fields in order (both lists have equal length for
two Rust values of one struct type). -/
def anyNamed (acc : Bool) :
    List (String × DValue) → List (String × DValue) → Bool
  | (_, a) :: fs, (_, b) :: gs =>
    anyNamed (if !acc then anyDifference a b else acc) fs gs
  | _, _ => acc
termination_by fs gs => sizeOf fs + sizeOf gs
decreasing_by all_goals (simp_wf; try omega)

/-- `TupleDiffer for TupleDetector<Any>`: `Any::consider` per field. -/
def anyPlain (acc : Bool) : List DValue → List DValue → Bool
  | a :: fs, b :: gs =>
    anyPlain (if !acc then anyDifference a b else acc) fs gs
  | _, _ => acc
termination_by fs gs => sizeOf fs + sizeOf gs
decreasing_by all_goals (simp_wf; try omega)

/-- `Any::consider_all`, the body of `SeqDetector<Any>::diff_elements`:
`left.zip_longest(right).any(|ab| Both => any_difference, excess => true)`
(`||` short-circuits exactly like `Iterator::any`). -/
def anySeqEx : List DValue → List DValue → Bool
  | [], [] => false
  | [], _ :: _ => true
  | _ :: _, [] => true
  | a :: xs, b :: ys => anyDifference a b || anySeqEx xs ys
termination_by xs ys => sizeOf xs + sizeOf ys
decreasing_by all_goals (simp_wf; try omega)

/-- The `BTreeMap`/`BTreeSet` impls drive `merge_join_by` over the two
key-sorted entry lists and dispatch each event to `MapDetector<Any>` /
`SetDetector<Any>`: `diff_entry`/`diff_equal` run `Any::consider`, and
`only_in_left`/`only_in_right` run `Any::diff` (which sets the flag). -/
def anyMerge (acc : Bool) :
    List (Nat × DValue) → List (Nat × DValue) → Bool
  | [], [] => acc
  | [], _ :: ys => anyMerge true [] ys
  | _ :: xs, [] => anyMerge true xs []
  | (k1, v1) :: xs, (k2, v2) :: ys =>
    if k1 < k2 then anyMerge true xs ((k2, v2) :: ys)
    else if k2 < k1 then anyMerge true ((k1, v1) :: xs) ys
    else anyMerge (if !acc then anyDifference v1 v2 else acc) xs ys
termination_by l r => sizeOf l + sizeOf r
decreasing_by all_goals (simp_wf; try omega)

end

/-- State of the `All` accumulator from `detect.rs`: `all` = every examined
part differed so far, `any` = at least one part was examined. -/
structure AllSt : Type where
  all : Bool
  any : Bool
deriving DecidableEq

/-- `impl Default for All`: `All { all: true, any: false }`. -/
def AllSt.start : AllSt := ⟨true, false⟩

/-- `All::consider`: `if self.all { self.all = any_difference(a, b);
self.any = true; }`. -/
def AllSt.consider (s : AllSt) (a b : DValue) : AllSt :=
  if s.all then ⟨anyDifference a b, true⟩ else s

/-- `All::diff` (used for excess set/map entries and direct
`left_excess`/`right_excess` calls): `self.any = true`, `all` untouched. -/
def AllSt.diffStep (s : AllSt) : AllSt := ⟨s.all, true⟩

/-- `impl From<All> for bool`: `x.any && x.all` (the debugging `println!` in
the source has no effect on the value). -/
def AllSt.finish (s : AllSt) : Bool := s.any && s.all

/-- `StructDiffer for StructDetector<All>`: `All::consider` per named field,
in declaration order. -/
def allNamed (s : AllSt) :
    List (String × DValue) → List (String × DValue) → AllSt
  | (_, a) :: fs, (_, b) :: gs => allNamed (s.consider a b) fs gs
  | _, _ => s

/-- `TupleDiffer for TupleDetector<All>`: `All::consider` per field. -/
def allPlain (s : AllSt) : List DValue → List DValue → AllSt
  | a :: fs, b :: gs => allPlain (s.consider a b) fs gs
  | _, _ => s

/-- The fold inside `All::consider_all`:
`left.zip_longest(right).fold(self, ...)` sends a `Both` pair to
`All { all: s.all && any_difference(&a, &b), any: true }` and an excess
element to `All { all: false, any: true }`. -/
def allSeqFold (s : AllSt) : List DValue → List DValue → AllSt
  | [], [] => s
  | a :: xs, b :: ys => allSeqFold ⟨s.all && anyDifference a b, true⟩ xs ys
  | [], _ :: ys => allSeqFold ⟨false, true⟩ [] ys
  | _ :: xs, [] => allSeqFold ⟨false, true⟩ xs []

/-- `All::consider_all` (the body of `SeqDetector<All>::diff_elements`): the
fold above, guarded by `if self.all`. -/
def allConsiderAll (s : AllSt) (xs ys : List DValue) : AllSt :=
  if s.all then allSeqFold s xs ys else s

/-- `MapDetector<All>` / `SetDetector<All>` driven by the `merge_join_by`
loop of the `BTreeMap`/`BTreeSet` impls: `diff_entry`/`diff_equal` run
`All::consider`, `only_in_left`/`only_in_right` run `All::diff`. -/
def allMerge (s : AllSt) :
    List (Nat × DValue) → List (Nat × DValue) → AllSt
  | [], [] => s
  | [], _ :: ys => allMerge s.diffStep [] ys
  | _ :: xs, [] => allMerge s.diffStep xs []
  | (k1, v1) :: xs, (k2, v2) :: ys =>
    if k1 < k2 then allMerge s.diffStep xs ((k2, v2) :: ys)
    else if k2 < k1 then allMerge s.diffStep ((k1, v1) :: xs) ys
    else allMerge (s.consider v1 v2) xs ys

/--
`all_different(a, b)` from `detect.rs`: `Diff::diff(a, b,
Detector::<All>::default())`, unwrapped.  Atomic outcomes are decided at the
`Detector` level (`difference` → `Ok(true)`, `same` → `Ok(false)`),
`diff_newtype` recurses, and every composite shape folds the `All`
accumulator over its parts, finishing with `any && all`.
-/
def allDifferent : DValue → DValue → Bool
  | .atom k1 e1 _, .atom k2 e2 _ =>
    if atomEqb k1 e1 k2 e2 then false else true
  | .unitV, .unitV => false
  | .ptr a1 _, .ptr a2 _ => if a1 == a2 then false else true
  | .newtype _ a, .newtype _ b => allDifferent a b
  | .structV _ fs, .structV _ gs => (allNamed AllSt.start fs gs).finish
  | .tupleV _ fs, .tupleV _ gs => (allPlain AllSt.start fs gs).finish
  | .enumUnitV _ t1 _, .enumUnitV _ t2 _ => if t1 == t2 then false else true
  | .enumStructV _ t1 _ fs, .enumStructV _ t2 _ gs =>
    if t1 == t2 then (allNamed AllSt.start fs gs).finish else true
  | .enumTupleV _ t1 _ fs, .enumTupleV _ t2 _ gs =>
    if t1 == t2 then (allPlain AllSt.start fs gs).finish else true
  | .seqV xs, .seqV ys => (allConsiderAll AllSt.start xs ys).finish
  | .mapV l, .mapV r => (allMerge AllSt.start l r).finish
  | .setV l, .setV r => (allMerge AllSt.start l r).finish
  | _, _ => true

/-- State of `DiffCounter` from `detect_all.rs`. -/
structure DiffCounter : Type where
  diffs : Nat
  total : Nat
deriving DecidableEq

/-- `DiffCounter::default()`: both counters zero. -/
def DiffCounter.start : DiffCounter := ⟨0, 0⟩

/-- `DiffCounter::consider`: `self.total += 1; if any_difference(a, b)
{ self.diffs += 1 }`. -/
def DiffCounter.consider (c : DiffCounter) (a b : DValue) : DiffCounter :=
  ⟨if anyDifference a b then c.diffs + 1 else c.diffs, c.total + 1⟩

/-- `DiffCounter::diff`: `self.total += 1; self.diffs += 1`. -/
def DiffCounter.diffStep (c : DiffCounter) : DiffCounter :=
  ⟨c.diffs + 1, c.total + 1⟩

/-- `DiffCounter::all`: `self.total == self.diffs`. -/
def DiffCounter.allDone (c : DiffCounter) : Bool := c.total == c.diffs

/-- `StructDiffer for StructDetector` of `detect_all.rs`. -/
def countNamed (c : DiffCounter) :
    List (String × DValue) → List (String × DValue) → DiffCounter
  | (_, a) :: fs, (_, b) :: gs => countNamed (c.consider a b) fs gs
  | _, _ => c

/-- `TupleDiffer for TupleDetector` of `detect_all.rs`. -/
def countPlain (c : DiffCounter) : List DValue → List DValue → DiffCounter
  | a :: fs, b :: gs => countPlain (c.consider a b) fs gs
  | _, _ => c

/-- `SeqDetector` of `detect_all.rs` does not override `diff_elements`, so
the trait's default zip-longest loop runs: `Both` → `diff_element` →
`DiffCounter::consider`; `Left`/`Right` → `left_excess`/`right_excess` →
`DiffCounter::diff`. -/
def countSeqFold (c : DiffCounter) :
    List DValue → List DValue → DiffCounter
  | [], [] => c
  | a :: xs, b :: ys => countSeqFold (c.consider a b) xs ys
  | [], _ :: ys => countSeqFold c.diffStep [] ys
  | _ :: xs, [] => countSeqFold c.diffStep xs []

/-- `MapDetector` / `SetDetector` of `detect_all.rs` under the
`merge_join_by` loop. -/
def countMerge (c : DiffCounter) :
    List (Nat × DValue) → List (Nat × DValue) → DiffCounter
  | [], [] => c
  | [], _ :: ys => countMerge c.diffStep [] ys
  | _ :: xs, [] => countMerge c.diffStep xs []
  | (k1, v1) :: xs, (k2, v2) :: ys =>
    if k1 < k2 then countMerge c.diffStep xs ((k2, v2) :: ys)
    else if k2 < k1 then countMerge c.diffStep ((k1, v1) :: xs) ys
    else countMerge (c.consider v1 v2) xs ys

/--
`all_different(a, b)` from `detect_all.rs`: `Diff::diff(a, b, Detector)`,
where every sub-visitor tallies a `DiffCounter` and ends with
`self.0.all()`, i.e. `total == diffs`.
-/
def allDifferentCount : DValue → DValue → Bool
  | .atom k1 e1 _, .atom k2 e2 _ =>
    if atomEqb k1 e1 k2 e2 then false else true
  | .unitV, .unitV => false
  | .ptr a1 _, .ptr a2 _ => if a1 == a2 then false else true
  | .newtype _ a, .newtype _ b => allDifferentCount a b
  | .structV _ fs, .structV _ gs => (countNamed DiffCounter.start fs gs).allDone
  | .tupleV _ fs, .tupleV _ gs => (countPlain DiffCounter.start fs gs).allDone
  | .enumUnitV _ t1 _, .enumUnitV _ t2 _ => if t1 == t2 then false else true
  | .enumStructV _ t1 _ fs, .enumStructV _ t2 _ gs =>
    if t1 == t2 then (countNamed DiffCounter.start fs gs).allDone else true
  | .enumTupleV _ t1 _ fs, .enumTupleV _ t2 _ gs =>
    if t1 == t2 then (countPlain DiffCounter.start fs gs).allDone else true
  | .seqV xs, .seqV ys => (countSeqFold DiffCounter.start xs ys).allDone
  | .mapV l, .mapV r => (countMerge DiffCounter.start l r).allDone
  | .setV l, .setV r => (countMerge DiffCounter.start l r).allDone
  | _, _ => true

mutual

/-- `Debug` rendering of a value, as the standard derived/std impls print it
in compact mode; this is what the recorder's `format!("{:?}", ...)` calls
produce for atomic leaves, excess elements, map keys and whole enum
values. -/
def reprD : DValue → String
  | .atom _ _ t => t
  | .unitV => "()"
  | .ptr a _ => ptrText a
  | .newtype n v => n ++ "(" ++ reprD v ++ ")"
  | .structV n [] => n
  | .structV n fs => n ++ " \x7b " ++ reprNamed fs ++ " \x7d"
  | .tupleV n [] => if n == "" then "()" else n
  | .tupleV n fs =>
    if n == "" then "(" ++ reprPlain fs ++ ")"
    else n ++ "(" ++ reprPlain fs ++ ")"
  | .enumUnitV _ _ vn => vn
  | .enumStructV _ _ vn [] => vn
  | .enumStructV _ _ vn fs => vn ++ " \x7b " ++ reprNamed fs ++ " \x7d"
  | .enumTupleV _ _ vn [] => vn
  | .enumTupleV _ _ vn fs => vn ++ "(" ++ reprPlain fs ++ ")"
  | .seqV xs => "[" ++ reprPlain xs ++ "]"
  | .mapV es => "\x7b" ++ reprEntries es ++ "\x7d"
  | .setV es => "\x7b" ++ reprSetElems es ++ "\x7d"
termination_by v => sizeOf v
decreasing_by all_goals (simp_wf; try omega)

/-- Comma-separated `name: value` rendering of named fields. -/
def reprNamed : List (String × DValue) → String
  | [] => ""
  | [(n, v)] => n ++ ": " ++ reprD v
  | (n, v) :: fs => n ++ ": " ++ reprD v ++ ", " ++ reprNamed fs
termination_by fs => sizeOf fs
decreasing_by all_goals (simp_wf; try omega)

/-- Comma-separated rendering of unnamed fields / sequence elements. -/
def reprPlain : List DValue → String
  | [] => ""
  | [v] => reprD v
  | v :: fs => reprD v ++ ", " ++ reprPlain fs
termination_by fs => sizeOf fs
decreasing_by all_goals (simp_wf; try omega)

/-- Comma-separated `key: value` rendering of map entries. -/
def reprEntries : List (Nat × DValue) → String
  | [] => ""
  | [(k, v)] => Nat.repr k ++ ": " ++ reprD v
  | (k, v) :: es => Nat.repr k ++ ": " ++ reprD v ++ ", " ++ reprEntries es
termination_by es => sizeOf es
decreasing_by all_goals (simp_wf; try omega)

/-- Comma-separated rendering of set elements (the element value itself). -/
def reprSetElems : List (Nat × DValue) → String
  | [] => ""
  | [(_, v)] => reprD v
  | (_, v) :: es => reprD v ++ ", " ++ reprSetElems es
termination_by es => sizeOf es
decreasing_by all_goals (simp_wf; try omega)

end

mutual

/-- The recorder's output tree, `Value` from `record.rs`.  `Enum { name,
variant: Variant::Struct(..) | Variant::Tuple(..) }` is flattened into the
two `enum*R` constructors.  A `none` field is one reported via
`skip_field`. -/
inductive RValue : Type where
  | same (l r : String)
  | difference (l r : String)
  | newtypeR (name : String) (inner : RValue)
  | structR (name : String) (fields : List (String × Option RValue))
  | tupleR (name : String) (fields : List (Option RValue))
  | enumStructR (ty vname : String) (fields : List (String × Option RValue))
  | enumTupleR (ty vname : String) (fields : List (Option RValue))
  | sequenceR (elems : List RElement)
  | setR (elems : List RElement)
  | mapR (entries : List (String × RElement))

/-- `Element` from `record.rs`. -/
inductive RElement : Type where
  | leftOnly (s : String)
  | rightOnly (s : String)
  | both (v : RValue)

end

mutual

/--
`record_diff(a, b)` from `record.rs`: `Diff::diff(a, b, ValueRecorder)`,
unwrapped.  `same`/`difference` store both sides' `Debug` text,
`diff_newtype` boxes a recursive record, and each sub-recorder accumulates
its field/element/entry list in visit order.
-/
def recordDiff : DValue → DValue → RValue
  | .atom k1 e1 t1, .atom k2 e2 t2 =>
    if atomEqb k1 e1 k2 e2 then .same t1 t2 else .difference t1 t2
  | .unitV, .unitV => .same "()" "()"
  | .ptr a1 _, .ptr a2 _ =>
    if a1 == a2 then .same (ptrText a1) (ptrText a2)
    else .difference (ptrText a1) (ptrText a2)
  | .newtype n a, .newtype _ b => .newtypeR n (recordDiff a b)
  | .structV n fs, .structV _ gs => .structR n (recNamed fs gs)
  | .tupleV n fs, .tupleV _ gs => .tupleR n (recPlain fs gs)
  | .enumUnitV _ t1 vn1, .enumUnitV _ t2 vn2 =>
    if t1 == t2 then .same vn1 vn2
    else .difference vn1 vn2
  | .enumStructV ty t1 vn fs, .enumStructV ty2 t2 vn2 gs =>
    if t1 == t2 then .enumStructR ty vn (recNamed fs gs)
    else .difference (reprD (.enumStructV ty t1 vn fs))
      (reprD (.enumStructV ty2 t2 vn2 gs))
  | .enumTupleV ty t1 vn fs, .enumTupleV ty2 t2 vn2 gs =>
    if t1 == t2 then .enumTupleR ty vn (recPlain fs gs)
    else .difference (reprD (.enumTupleV ty t1 vn fs))
      (reprD (.enumTupleV ty2 t2 vn2 gs))
  | .seqV xs, .seqV ys => .sequenceR (recSeq xs ys)
  | .mapV l, .mapV r => .mapR (recMapMerge l r)
  | .setV l, .setV r => .setR (recSetMerge l r)
  | a, b => .difference (reprD a) (reprD b)
termination_by a b => sizeOf a + sizeOf b
decreasing_by all_goals (simp_wf; try omega)

/-- `StructRecorder::diff_field`: push `(name, Some(record))` per field. -/
def recNamed :
    List (String × DValue) → List (String × DValue) →
      List (String × Option RValue)
  | (n, a) :: fs, (_, b) :: gs => (n, some (recordDiff a b)) :: recNamed fs gs
  | _, _ => []
termination_by fs gs => sizeOf fs + sizeOf gs
decreasing_by all_goals (simp_wf; try omega)

/-- `TupleRecorder::diff_field`: push `Some(record)` per field. -/
def recPlain : List DValue → List DValue → List (Option RValue)
  | a :: fs, b :: gs => some (recordDiff a b) :: recPlain fs gs
  | _, _ => []
termination_by fs gs => sizeOf fs + sizeOf gs
decreasing_by all_goals (simp_wf; try omega)

/-- `SequenceRecorder` under the default zip-longest `diff_elements`:
`Both` → `Element::Both(record)`, excess → `LeftOnly`/`RightOnly` of the
element's `Debug` text. -/
def recSeq : List DValue → List DValue → List RElement
  | [], [] => []
  | a :: xs, b :: ys => .both (recordDiff a b) :: recSeq xs ys
  | [], b :: ys => .rightOnly (reprD b) :: recSeq [] ys
  | a :: xs, [] => .leftOnly (reprD a) :: recSeq xs []
termination_by xs ys => sizeOf xs + sizeOf ys
decreasing_by all_goals (simp_wf; try omega)

/-- `MapRecorder` under the `BTreeMap` impl's `merge_join_by` loop:
`diff_entry` pushes `(format!("{:?}", key), Both(record))`, the excess arms
push `LeftOnly`/`RightOnly` of the value's `Debug` text. -/
def recMapMerge :
    List (Nat × DValue) → List (Nat × DValue) → List (String × RElement)
  | [], [] => []
  | [], (k, v) :: ys => (Nat.repr k, .rightOnly (reprD v)) :: recMapMerge [] ys
  | (k, v) :: xs, [] => (Nat.repr k, .leftOnly (reprD v)) :: recMapMerge xs []
  | (k1, v1) :: xs, (k2, v2) :: ys =>
    if k1 < k2 then
      (Nat.repr k1, .leftOnly (reprD v1)) :: recMapMerge xs ((k2, v2) :: ys)
    else if k2 < k1 then
      (Nat.repr k2, .rightOnly (reprD v2)) :: recMapMerge ((k1, v1) :: xs) ys
    else (Nat.repr k1, .both (recordDiff v1 v2)) :: recMapMerge xs ys
termination_by l r => sizeOf l + sizeOf r
decreasing_by all_goals (simp_wf; try omega)

/-- `SequenceRecorder` as a `SetDiffer`, under the `BTreeSet` impl's
`merge_join_by` loop. -/
def recSetMerge :
    List (Nat × DValue) → List (Nat × DValue) → List RElement
  | [], [] => []
  | [], (_, v) :: ys => .rightOnly (reprD v) :: recSetMerge [] ys
  | (_, v) :: xs, [] => .leftOnly (reprD v) :: recSetMerge xs []
  | (k1, v1) :: xs, (k2, v2) :: ys =>
    if k1 < k2 then .leftOnly (reprD v1) :: recSetMerge xs ((k2, v2) :: ys)
    else if k2 < k1 then .rightOnly (reprD v2) :: recSetMerge ((k1, v1) :: xs) ys
    else .both (recordDiff v1 v2) :: recSetMerge xs ys
termination_by l r => sizeOf l + sizeOf r
decreasing_by all_goals (simp_wf; try omega)

end

mutual

/-- True when a recorded tree contains no `Difference` leaf and no
`LeftOnly`/`RightOnly` element anywhere. -/
def cleanTree : RValue → Bool
  | .same _ _ => true
  | .difference _ _ => false
  | .newtypeR _ v => cleanTree v
  | .structR _ fs => cleanNamedR fs
  | .tupleR _ fs => cleanPlainR fs
  | .enumStructR _ _ fs => cleanNamedR fs
  | .enumTupleR _ _ fs => cleanPlainR fs
  | .sequenceR es => cleanElems es
  | .setR es => cleanElems es
  | .mapR es => cleanEntriesR es
termination_by v => sizeOf v
decreasing_by all_goals (simp_wf; try omega)

/-- Cleanliness of a named-field list. -/
def cleanNamedR : List (String × Option RValue) → Bool
  | [] => true
  | (_, none) :: fs => cleanNamedR fs
  | (_, some v) :: fs => cleanTree v && cleanNamedR fs
termination_by fs => sizeOf fs
decreasing_by all_goals (simp_wf; try omega)

/-- Cleanliness of an unnamed-field list. -/
def cleanPlainR : List (Option RValue) → Bool
  | [] => true
  | none :: fs => cleanPlainR fs
  | some v :: fs => cleanTree v && cleanPlainR fs
termination_by fs => sizeOf fs
decreasing_by all_goals (simp_wf; try omega)

/-- Cleanliness of a sequence/set element list: any `LeftOnly`/`RightOnly`
is unclean. -/
def cleanElems : List RElement → Bool
  | [] => true
  | .leftOnly _ :: _ => false
  | .rightOnly _ :: _ => false
  | .both v :: es => cleanTree v && cleanElems es
termination_by es => sizeOf es
decreasing_by all_goals (simp_wf; try omega)

/-- Cleanliness of a map entry list. -/
def cleanEntriesR : List (String × RElement) → Bool
  | [] => true
  | (_, .leftOnly _) :: _ => false
  | (_, .rightOnly _) :: _ => false
  | (_, .both v) :: es => cleanTree v && cleanEntriesR es
termination_by es => sizeOf es
decreasing_by all_goals (simp_wf; try omega)

end

mutual

/-- True when every atomic leaf of the value is self-equal under
`PartialEq`, i.e. the value contains no `f32`/`f64` NaN.  Pointees of raw
pointers are exempt because comparison never reaches them. -/
def selfEqLeaves : DValue → Bool
  | .atom _ e _ => e
  | .unitV => true
  | .ptr _ _ => true
  | .newtype _ v => selfEqLeaves v
  | .structV _ fs => selfEqNamed fs
  | .tupleV _ fs => selfEqPlain fs
  | .enumUnitV _ _ _ => true
  | .enumStructV _ _ _ fs => selfEqNamed fs
  | .enumTupleV _ _ _ fs => selfEqPlain fs
  | .seqV xs => selfEqPlain xs
  | .mapV es => selfEqEntries es
  | .setV es => selfEqEntries es
termination_by v => sizeOf v
decreasing_by all_goals (simp_wf; try omega)

/-- `selfEqLeaves` over named fields. -/
def selfEqNamed : List (String × DValue) → Bool
  | [] => true
  | (_, v) :: fs => selfEqLeaves v && selfEqNamed fs
termination_by fs => sizeOf fs
decreasing_by all_goals (simp_wf; try omega)

/-- `selfEqLeaves` over a value list. -/
def selfEqPlain : List DValue → Bool
  | [] => true
  | v :: fs => selfEqLeaves v && selfEqPlain fs
termination_by fs => sizeOf fs
decreasing_by all_goals (simp_wf; try omega)

/-- `selfEqLeaves` over keyed entries. -/
def selfEqEntries : List (Nat × DValue) → Bool
  | [] => true
  | (_, v) :: es => selfEqLeaves v && selfEqEntries es
termination_by es => sizeOf es
decreasing_by all_goals (simp_wf; try omega)

end

/-- One event of `itertools::merge_join_by` over two key-sorted entry
lists. -/
inductive MergeEv : Type where
  | left (e : Nat × DValue)
  | right (e : Nat × DValue)
  | both (e1 e2 : Nat × DValue)

/-- `a.iter().merge_join_by(b, |i, j| i.cmp(j))` on key-sorted entry lists:
`Less` emits `Left` and advances the left iterator, `Greater` emits `Right`
and advances the right one, `Equal` emits `Both` and advances both. -/
def mergeJoinBy :
    List (Nat × DValue) → List (Nat × DValue) → List MergeEv
  | [], ys => ys.map .right
  | x :: xs, [] => .left x :: mergeJoinBy xs []
  | (k1, v1) :: xs, (k2, v2) :: ys =>
    if k1 < k2 then .left (k1, v1) :: mergeJoinBy xs ((k2, v2) :: ys)
    else if k2 < k1 then .right (k2, v2) :: mergeJoinBy ((k1, v1) :: xs) ys
    else .both (k1, v1) (k2, v2) :: mergeJoinBy xs ys
termination_by l r => l.length + r.length

/-- Whether a merge event counts as differing for the detectors: a shared
key/element counts iff its two values have some difference; an excess entry
counts unconditionally. -/
def evDiff : MergeEv → Bool
  | .left _ => true
  | .right _ => true
  | .both (_, v1) (_, v2) => anyDifference v1 v2

/-- The discriminant of an enum-shaped value, `none` otherwise. -/
def enumTag : DValue → Option Nat
  | .enumUnitV _ t _ => some t
  | .enumStructV _ t _ _ => some t
  | .enumTupleV _ t _ _ => some t
  | _ => none

/-- The sufficient condition under which the two `all_different`
implementations coincide: every composite reached at the top (through
newtype wrappers and matching enum variants) observes at least one part, and
sequence comparisons have no excess element (equal lengths).  Atoms, units,
pointers and mismatched variants are unconditional. -/
def agreeOK : DValue → DValue → Bool
  | .newtype _ a, .newtype _ b => agreeOK a b
  | .structV _ fs, .structV _ gs => !fs.isEmpty && !gs.isEmpty
  | .tupleV _ fs, .tupleV _ gs => !fs.isEmpty && !gs.isEmpty
  | .enumStructV _ t1 _ fs, .enumStructV _ t2 _ gs =>
    t1 != t2 || (!fs.isEmpty && !gs.isEmpty)
  | .enumTupleV _ t1 _ fs, .enumTupleV _ t2 _ gs =>
    t1 != t2 || (!fs.isEmpty && !gs.isEmpty)
  | .seqV xs, .seqV ys => xs.length == ys.length && !xs.isEmpty
  | .mapV l, .mapV r => !(l.isEmpty && r.isEmpty)
  | .setV l, .setV r => !(l.isEmpty && r.isEmpty)
  | _, _ => true

/-- Model of `void::Void`, the uninhabited error type used by the detector
and recorder consumers (`type Err = Void`). -/
inductive RustVoid : Type where

/-- Model of `ResultVoidExt::void_unwrap`: a `Result<T, Void>` can be
unwrapped without any possibility of panic, because the error case is
uninhabited. -/
def voidUnwrap {A : Type} : Except RustVoid A → A
  | .ok x => x

/-- `any_difference`, with the `Result<bool, Void>` of `Diff::diff` made
explicit: every arm of `Detector<Any>` returns `Ok`, so the result is `Ok`
of the detector value. -/
def anyDifferenceResult (a b : DValue) : Except RustVoid Bool :=
  .ok (anyDifference a b)

/-- `all_different`, with the `Result<bool, Void>` of `Diff::diff` made
explicit. -/
def allDifferentResult (a b : DValue) : Except RustVoid Bool :=
  .ok (allDifferent a b)

/-- `record_diff`, with the `Result<Value, Void>` of `Diff::diff` made
explicit. -/
def recordDiffResult (a b : DValue) : Except RustVoid RValue :=
  .ok (recordDiff a b)

/-! ### Characterizations of the accumulator folds -/

/-- A list is entirely `p`-positive exactly when `countP` reaches its
length. -/
theorem length_beq_countP {A : Type} (l : List A) (p : A → Bool) :
    (l.length == l.countP p) = l.all p := by
  induction l with
  | nil => simp
  | cons a l ih =>
    by_cases h : p a = true
    · simpa [List.countP_cons, h, Nat.add_comm] using ih
    · have hle := List.countP_le_length p (l := l)
      have hpa : p a = false := by simpa using h
      simp [List.countP_cons, hpa, beq_eq_false_iff_ne]
      omega

/-- `Any` over named fields is the disjunction of the children's
`any_difference`. -/
theorem anyNamed_eq :
    ∀ (fs gs : List (String × DValue)) (acc : Bool),
      anyNamed acc fs gs =
        (acc || (fs.zip gs).any fun p => anyDifference p.1.2 p.2.2) := by
  intro fs
  induction fs with
  | nil => intro gs acc; cases gs <;> simp [anyNamed]
  | cons f fs ih =>
    intro gs acc
    cases gs with
    | nil => simp [anyNamed]
    | cons g gs =>
      obtain ⟨n, a⟩ := f
      obtain ⟨m, b⟩ := g
      cases acc <;> simp [anyNamed, ih, Bool.or_assoc]

/-- `Any` over unnamed fields is the disjunction of the children's
`any_difference`. -/
theorem anyPlain_eq :
    ∀ (fs gs : List DValue) (acc : Bool),
      anyPlain acc fs gs =
        (acc || (fs.zip gs).any fun p => anyDifference p.1 p.2) := by
  intro fs
  induction fs with
  | nil => intro gs acc; cases gs <;> simp [anyPlain]
  | cons a fs ih =>
    intro gs acc
    cases gs with
    | nil => simp [anyPlain]
    | cons b gs => cases acc <;> simp [anyPlain, ih, Bool.or_assoc]

/-- `Any::consider_all` is true iff some matched pair differs or the lengths
disagree (some element is excess). -/
theorem anySeqEx_eq :
    ∀ (xs ys : List DValue),
      anySeqEx xs ys =
        (((xs.zip ys).any fun p => anyDifference p.1 p.2) ||
          !(xs.length == ys.length)) := by
  intro xs
  induction xs with
  | nil => intro ys; cases ys <;> simp [anySeqEx]
  | cons a xs ih =>
    intro ys
    cases ys with
    | nil => simp [anySeqEx]
    | cons b ys => simp [anySeqEx, ih, Bool.or_assoc]

/-- `Any` over an exhausted left map iterator. -/
theorem anyMerge_nil_left :
    ∀ (ys : List (Nat × DValue)) (acc : Bool),
      anyMerge acc [] ys = (acc || !ys.isEmpty) := by
  intro ys
  induction ys with
  | nil => intro acc; simp [anyMerge]
  | cons y ys ih => intro acc; simp [anyMerge, ih]

/-- `Any` over the merge-join events of a map/set comparison. -/
theorem anyMerge_eq :
    ∀ (l r : List (Nat × DValue)) (acc : Bool),
      anyMerge acc l r = (acc || (mergeJoinBy l r).any evDiff) := by
  intro l r
  induction l, r using mergeJoinBy.induct with
  | case1 ys =>
    intro acc
    have h1 : (List.map MergeEv.right ys).any evDiff = !ys.isEmpty := by
      cases ys <;> simp [evDiff]
    simp [mergeJoinBy, anyMerge_nil_left, h1]
  | case2 x xs ih =>
    intro acc
    simp [anyMerge, mergeJoinBy, evDiff, ih]
  | case3 k1 v1 xs k2 v2 ys h ih =>
    intro acc
    simp [anyMerge, mergeJoinBy, if_pos h, evDiff, ih]
  | case4 k1 v1 xs k2 v2 ys h1 h2 ih =>
    intro acc
    simp [anyMerge, mergeJoinBy, if_neg h1, if_pos h2, evDiff, ih]
  | case5 k1 v1 xs k2 v2 ys h1 h2 ih =>
    intro acc
    simp only [anyMerge, mergeJoinBy, if_neg h1, if_neg h2]
    cases acc <;> simp [evDiff, ih, Bool.or_assoc]

/-- Closed form of the `All` accumulator over named fields. -/
theorem allNamed_eq :
    ∀ (fs gs : List (String × DValue)) (s : AllSt),
      allNamed s fs gs =
        ⟨s.all && ((fs.zip gs).all fun p => anyDifference p.1.2 p.2.2),
          s.any || (s.all && !(fs.zip gs).isEmpty)⟩ := by
  intro fs
  induction fs with
  | nil => intro gs s; cases s; cases gs <;> simp [allNamed]
  | cons f fs ih =>
    intro gs s
    cases gs with
    | nil => cases s; simp [allNamed]
    | cons g gs =>
      obtain ⟨n, a⟩ := f
      obtain ⟨m, b⟩ := g
      obtain ⟨al, an⟩ := s
      cases al with
      | false => simp [allNamed, AllSt.consider, ih]
      | true =>
        cases h : anyDifference a b <;>
          simp [allNamed, AllSt.consider, ih, h]

/-- Closed form of the `All` accumulator over unnamed fields. -/
theorem allPlain_eq :
    ∀ (fs gs : List DValue) (s : AllSt),
      allPlain s fs gs =
        ⟨s.all && ((fs.zip gs).all fun p => anyDifference p.1 p.2),
          s.any || (s.all && !(fs.zip gs).isEmpty)⟩ := by
  intro fs
  induction fs with
  | nil => intro gs s; cases s; cases gs <;> simp [allPlain]
  | cons a fs ih =>
    intro gs s
    cases gs with
    | nil => cases s; simp [allPlain]
    | cons b gs =>
      obtain ⟨al, an⟩ := s
      cases al with
      | false => simp [allPlain, AllSt.consider, ih]
      | true =>
        cases h : anyDifference a b <;>
          simp [allPlain, AllSt.consider, ih, h]

/-- The fold inside `All::consider_all` over an exhausted right iterator:
each remaining left element is excess. -/
theorem allSeqFold_nil_right :
    ∀ (xs : List DValue) (s : AllSt),
      allSeqFold s xs [] =
        ⟨s.all && (xs.length == 0), s.any || !xs.isEmpty⟩ := by
  intro xs
  induction xs with
  | nil => intro s; cases s; simp [allSeqFold]
  | cons a xs ih => intro s; cases s; simp [allSeqFold, ih]

/-- The fold inside `All::consider_all` over an exhausted left iterator. -/
theorem allSeqFold_nil_left :
    ∀ (ys : List DValue) (s : AllSt),
      allSeqFold s [] ys =
        ⟨s.all && (0 == ys.length), s.any || !ys.isEmpty⟩ := by
  intro ys
  induction ys with
  | nil => intro s; cases s; simp [allSeqFold]
  | cons b ys ih => intro s; cases s; simp [allSeqFold, ih]

/-- Closed form of the fold inside `All::consider_all`: matched pairs are
conjoined, an excess element (length mismatch) forces `all` to false, and
`any` records whether anything was seen. -/
theorem allSeqFold_eq :
    ∀ (xs ys : List DValue) (s : AllSt),
      allSeqFold s xs ys =
        ⟨s.all && (xs.length == ys.length) &&
            ((xs.zip ys).all fun p => anyDifference p.1 p.2),
          s.any || !xs.isEmpty || !ys.isEmpty⟩ := by
  intro xs
  induction xs with
  | nil =>
    intro ys s
    rw [allSeqFold_nil_left]
    cases s
    cases ys <;> simp
  | cons a xs ih =>
    intro ys s
    cases ys with
    | nil =>
      have h0 : allSeqFold s (a :: xs) [] = allSeqFold ⟨false, true⟩ xs [] := by
        cases s; simp [allSeqFold]
      rw [h0, allSeqFold_nil_right]
      cases s
      simp
    | cons b ys =>
      obtain ⟨al, an⟩ := s
      cases h : anyDifference a b <;> cases al <;>
        simp [allSeqFold, ih, h, Nat.succ_inj]

/-- `All` over an exhausted left map iterator: `All::diff` never touches
`all`. -/
theorem allMerge_nil_left :
    ∀ (ys : List (Nat × DValue)) (s : AllSt),
      allMerge s [] ys = ⟨s.all, s.any || !ys.isEmpty⟩ := by
  intro ys
  induction ys with
  | nil => intro s; cases s; simp [allMerge]
  | cons y ys ih => intro s; cases s; simp [allMerge, AllSt.diffStep, ih]

/-- Closed form of the `All` accumulator over the merge-join events of a
map/set comparison: excess entries leave `all` untouched (they count as
differing), shared entries are conjoined. -/
theorem allMerge_eq :
    ∀ (l r : List (Nat × DValue)) (s : AllSt),
      s.all = true ∨ s.any = true →
      allMerge s l r =
        ⟨s.all && (mergeJoinBy l r).all evDiff,
          s.any || !(l.isEmpty && r.isEmpty)⟩ := by
  intro l r
  induction l, r using mergeJoinBy.induct with
  | case1 ys =>
    intro s _
    have h1 : (List.map MergeEv.right ys).all evDiff = true := by
      induction ys with
      | nil => simp
      | cons y ys ihy => simp [evDiff, ihy]
    rw [allMerge_nil_left]
    simp [mergeJoinBy, h1]
  | case2 x xs ih =>
    intro s _
    obtain ⟨al, an⟩ := s
    have hih := ih ⟨al, true⟩ (Or.inr rfl)
    simp [allMerge, mergeJoinBy, evDiff, AllSt.diffStep, hih]
  | case3 k1 v1 xs k2 v2 ys h ih =>
    intro s _
    obtain ⟨al, an⟩ := s
    have hih := ih ⟨al, true⟩ (Or.inr rfl)
    simp [allMerge, mergeJoinBy, if_pos h, evDiff, AllSt.diffStep, hih]
  | case4 k1 v1 xs k2 v2 ys h1 h2 ih =>
    intro s _
    obtain ⟨al, an⟩ := s
    have hih := ih ⟨al, true⟩ (Or.inr rfl)
    simp [allMerge, mergeJoinBy, if_neg h1, if_pos h2, evDiff,
      AllSt.diffStep, hih]
  | case5 k1 v1 xs k2 v2 ys h1 h2 ih =>
    intro s hs
    obtain ⟨al, an⟩ := s
    simp only [allMerge, mergeJoinBy, if_neg h1, if_neg h2]
    cases al with
    | false =>
      have han : an = true := by simpa using hs
      subst han
      have hih := ih ⟨false, true⟩ (Or.inr rfl)
      simp [AllSt.consider, hih, evDiff]
    | true =>
      cases h : anyDifference v1 v2 with
      | false =>
        have hih := ih ⟨false, true⟩ (Or.inr rfl)
        simp [AllSt.consider, hih, h, evDiff]
      | true =>
        have hih := ih ⟨true, true⟩ (Or.inr rfl)
        simp [AllSt.consider, hih, h, evDiff]

/-- Cancellation of a common addend under `Nat` boolean equality. -/
theorem beq_add_right (a b c : Nat) : (a + c == b + c) = (a == b) := by
  rw [Bool.eq_iff_iff]
  simp

/-- Component form of the counting accumulator over named fields. -/
theorem countNamed_eq :
    ∀ (fs gs : List (String × DValue)) (c : DiffCounter),
      countNamed c fs gs =
        ⟨c.diffs + (fs.zip gs).countP (fun p => anyDifference p.1.2 p.2.2),
          c.total + (fs.zip gs).length⟩ := by
  intro fs
  induction fs with
  | nil => intro gs c; cases c; cases gs <;> simp [countNamed]
  | cons f fs ih =>
    intro gs c
    cases gs with
    | nil => cases c; simp [countNamed]
    | cons g gs =>
      obtain ⟨n, a⟩ := f
      obtain ⟨m, b⟩ := g
      obtain ⟨d, t⟩ := c
      cases h : anyDifference a b <;>
        simp [countNamed, DiffCounter.consider, ih, h, List.countP_cons] <;>
        omega

/-- Component form of the counting accumulator over unnamed fields. -/
theorem countPlain_eq :
    ∀ (fs gs : List DValue) (c : DiffCounter),
      countPlain c fs gs =
        ⟨c.diffs + (fs.zip gs).countP (fun p => anyDifference p.1 p.2),
          c.total + (fs.zip gs).length⟩ := by
  intro fs
  induction fs with
  | nil => intro gs c; cases c; cases gs <;> simp [countPlain]
  | cons a fs ih =>
    intro gs c
    cases gs with
    | nil => cases c; simp [countPlain]
    | cons b gs =>
      obtain ⟨d, t⟩ := c
      cases h : anyDifference a b <;>
        simp [countPlain, DiffCounter.consider, ih, h, List.countP_cons] <;>
        omega

/-- Component form of the counting accumulator over a zip-longest sequence
walk: excess elements bump both counters. -/
theorem countSeqFold_eq :
    ∀ (xs ys : List DValue) (c : DiffCounter),
      countSeqFold c xs ys =
        ⟨c.diffs + (xs.zip ys).countP (fun p => anyDifference p.1 p.2) +
            ((xs.length - ys.length) + (ys.length - xs.length)),
          c.total + (xs.zip ys).length +
            ((xs.length - ys.length) + (ys.length - xs.length))⟩ := by
  intro xs
  induction xs with
  | nil =>
    intro ys c
    induction ys generalizing c with
    | nil => cases c; simp [countSeqFold]
    | cons b ys ihy =>
      obtain ⟨d, t⟩ := c
      simp only [countSeqFold, DiffCounter.diffStep, ihy]
      simp
      omega
  | cons a xs ih =>
    intro ys c
    cases ys with
    | nil =>
      obtain ⟨d, t⟩ := c
      have hx :
          countSeqFold (⟨d, t⟩ : DiffCounter) (a :: xs) [] =
            countSeqFold ⟨d + 1, t + 1⟩ xs [] := by
        simp [countSeqFold, DiffCounter.diffStep]
      rw [hx, ih]
      simp
      omega
    | cons b ys =>
      obtain ⟨d, t⟩ := c
      cases h : anyDifference a b <;>
        simp [countSeqFold, DiffCounter.consider, ih, h, List.countP_cons] <;>
        omega

/-- Counting accumulator over an exhausted left map iterator. -/
theorem countMerge_nil_left :
    ∀ (ys : List (Nat × DValue)) (c : DiffCounter),
      countMerge c [] ys = ⟨c.diffs + ys.length, c.total + ys.length⟩ := by
  intro ys
  induction ys with
  | nil => intro c; cases c; simp [countMerge]
  | cons y ys ih =>
    intro c
    obtain ⟨d, t⟩ := c
    simp [countMerge, DiffCounter.diffStep, ih]
    omega

/-- Component form of the counting accumulator over the merge-join events of
a map/set comparison. -/
theorem countMerge_eq :
    ∀ (l r : List (Nat × DValue)) (c : DiffCounter),
      countMerge c l r =
        ⟨c.diffs + (mergeJoinBy l r).countP evDiff,
          c.total + (mergeJoinBy l r).length⟩ := by
  intro l r
  induction l, r using mergeJoinBy.induct with
  | case1 ys =>
    intro c
    have h1 : (List.map MergeEv.right ys).countP evDiff = ys.length := by
      induction ys with
      | nil => simp
      | cons y ys ihy => simp [List.countP_cons, evDiff, ihy]
    simp [mergeJoinBy, countMerge_nil_left, h1]
  | case2 x xs ih =>
    intro c
    obtain ⟨d, t⟩ := c
    simp [countMerge, mergeJoinBy, DiffCounter.diffStep, ih,
      List.countP_cons, evDiff]
    omega
  | case3 k1 v1 xs k2 v2 ys h ih =>
    intro c
    obtain ⟨d, t⟩ := c
    simp [countMerge, mergeJoinBy, if_pos h, DiffCounter.diffStep, ih,
      List.countP_cons, evDiff]
    omega
  | case4 k1 v1 xs k2 v2 ys h1 h2 ih =>
    intro c
    obtain ⟨d, t⟩ := c
    simp [countMerge, mergeJoinBy, if_neg h1, if_pos h2,
      DiffCounter.diffStep, ih, List.countP_cons, evDiff]
    omega
  | case5 k1 v1 xs k2 v2 ys h1 h2 ih =>
    intro c
    obtain ⟨d, t⟩ := c
    simp only [countMerge, mergeJoinBy, if_neg h1, if_neg h2]
    cases h : anyDifference v1 v2 <;>
      simp [DiffCounter.consider, ih, h, List.countP_cons, evDiff] <;>
      omega

/-! ### General lemmas relating the detectors -/

theorem any_of_all_nonempty {A : Type} (l : List A) (p : A → Bool)
    (h1 : l.isEmpty = false) (h2 : l.all p = true) : l.any p = true := by
  cases l with
  | nil => simp at h1
  | cons a l => simp_all

theorem mergeJoinBy_eq_nil_iff :
    ∀ (l r : List (Nat × DValue)), mergeJoinBy l r = [] ↔ l = [] ∧ r = [] := by
  intro l r
  induction l, r using mergeJoinBy.induct with
  | case1 ys => cases ys <;> simp [mergeJoinBy]
  | case2 x xs ih => simp [mergeJoinBy]
  | case3 k1 v1 xs k2 v2 ys h ih => simp [mergeJoinBy, if_pos h]
  | case4 k1 v1 xs k2 v2 ys h1 h2 ih =>
    simp [mergeJoinBy, if_neg h1, if_pos h2]
  | case5 k1 v1 xs k2 v2 ys h1 h2 ih =>
    simp [mergeJoinBy, if_neg h1, if_neg h2]

theorem all_imp_any :
    ∀ (a b : DValue), allDifferent a b = true → anyDifference a b = true := by
  intro a b
  induction a, b using allDifferent.induct
  case case6 n a m b ih =>
    simp only [allDifferent, anyDifference]
    exact ih
  case case7 n fs m gs =>
    intro h
    simp only [allDifferent, AllSt.start] at h
    rw [allNamed_eq] at h
    simp only [AllSt.finish, Bool.and_eq_true, Bool.true_and, Bool.false_or,
      Bool.not_eq_true'] at h
    simp only [anyDifference, anyNamed_eq, Bool.false_or]
    exact any_of_all_nonempty _ _ h.1 h.2
  case case8 n fs m gs =>
    intro h
    simp only [allDifferent, AllSt.start] at h
    rw [allPlain_eq] at h
    simp only [AllSt.finish, Bool.and_eq_true, Bool.true_and, Bool.false_or,
      Bool.not_eq_true'] at h
    simp only [anyDifference, anyPlain_eq, Bool.false_or]
    exact any_of_all_nonempty _ _ h.1 h.2
  case case11 ty t1 vn fs ty2 t2 vn2 gs ht =>
    intro h
    simp only [allDifferent, ht, if_true, AllSt.start] at h
    rw [allNamed_eq] at h
    simp only [AllSt.finish, Bool.and_eq_true, Bool.true_and, Bool.false_or,
      Bool.not_eq_true'] at h
    simp only [anyDifference, ht, if_true, anyNamed_eq, Bool.false_or]
    exact any_of_all_nonempty _ _ h.1 h.2
  case case13 ty t1 vn fs ty2 t2 vn2 gs ht =>
    intro h
    simp only [allDifferent, ht, if_true, AllSt.start] at h
    rw [allPlain_eq] at h
    simp only [AllSt.finish, Bool.and_eq_true, Bool.true_and, Bool.false_or,
      Bool.not_eq_true'] at h
    simp only [anyDifference, ht, if_true, anyPlain_eq, Bool.false_or]
    exact any_of_all_nonempty _ _ h.1 h.2
  case case15 xs ys =>
    intro h
    have hca : allConsiderAll AllSt.start xs ys = allSeqFold AllSt.start xs ys := by
      simp [allConsiderAll, AllSt.start]
    simp only [allDifferent] at h
    rw [hca, allSeqFold_eq] at h
    simp only [AllSt.start, AllSt.finish, Bool.and_eq_true, Bool.true_and,
      Bool.false_or, Bool.or_eq_true, Bool.not_eq_true'] at h
    simp only [anyDifference, anySeqEx_eq, Bool.or_eq_true]
    left
    apply any_of_all_nonempty _ _ _ h.2.2
    have hlen := h.2.1
    cases xs with
    | nil =>
      cases ys with
      | nil => rcases h.1 with hx | hx <;> simp at hx
      | cons b ys => simp at hlen
    | cons a xs =>
      cases ys with
      | nil => simp at hlen
      | cons b ys => simp
  case case16 l r =>
    intro h
    simp only [allDifferent] at h
    rw [allMerge_eq l r AllSt.start (Or.inl rfl)] at h
    simp only [AllSt.start, AllSt.finish, Bool.and_eq_true, Bool.true_and,
      Bool.false_or, Bool.not_eq_true'] at h
    simp only [anyDifference, anyMerge_eq, Bool.false_or]
    apply any_of_all_nonempty _ _ _ h.2
    cases hmj : mergeJoinBy l r with
    | cons e es => simp
    | nil =>
      obtain ⟨hl, hr⟩ := (mergeJoinBy_eq_nil_iff l r).mp hmj
      subst hl
      subst hr
      simp at h
  case case17 l r =>
    intro h
    simp only [allDifferent] at h
    rw [allMerge_eq l r AllSt.start (Or.inl rfl)] at h
    simp only [AllSt.start, AllSt.finish, Bool.and_eq_true, Bool.true_and,
      Bool.false_or, Bool.not_eq_true'] at h
    simp only [anyDifference, anyMerge_eq, Bool.false_or]
    apply any_of_all_nonempty _ _ _ h.2
    cases hmj : mergeJoinBy l r with
    | cons e es => simp
    | nil =>
      obtain ⟨hl, hr⟩ := (mergeJoinBy_eq_nil_iff l r).mp hmj
      subst hl
      subst hr
      simp at h
  case case18 t x h1 h2 h3 h4 h5 h6 h7 h8 h9 h10 h11 h12 =>
    intro _
    exact anyDifference.eq_13 t x h1 h2 h3 h4 h5 h6 h7 h8 h9 h10 h11 h12
  all_goals simp_all [allDifferent, anyDifference]


theorem agree_helper :
    ∀ (a b : DValue), agreeOK a b = true →
      allDifferent a b = allDifferentCount a b := by
  intro a b
  induction a, b using allDifferent.induct
  case case6 n a m b ih =>
    simp only [agreeOK, allDifferent, allDifferentCount]
    exact ih
  case case7 n fs m gs =>
    intro h
    simp only [agreeOK, Bool.and_eq_true, Bool.not_eq_true'] at h
    simp only [allDifferent, allDifferentCount, AllSt.start,
      DiffCounter.start]
    rw [allNamed_eq, countNamed_eq]
    simp only [AllSt.finish, DiffCounter.allDone, Nat.zero_add,
      length_beq_countP]
    cases fs with
    | nil => exact absurd h.1 (by simp)
    | cons f fs =>
      cases gs with
      | nil => exact absurd h.2 (by simp)
      | cons g gs => simp
  case case8 n fs m gs =>
    intro h
    simp only [agreeOK, Bool.and_eq_true, Bool.not_eq_true'] at h
    simp only [allDifferent, allDifferentCount, AllSt.start,
      DiffCounter.start]
    rw [allPlain_eq, countPlain_eq]
    simp only [AllSt.finish, DiffCounter.allDone, Nat.zero_add,
      length_beq_countP]
    cases fs with
    | nil => exact absurd h.1 (by simp)
    | cons f fs =>
      cases gs with
      | nil => exact absurd h.2 (by simp)
      | cons g gs => simp
  case case11 ty t1 vn fs ty2 t2 vn2 gs ht =>
    intro h
    simp only [agreeOK, bne, ht, Bool.not_true, Bool.false_or,
      Bool.and_eq_true, Bool.not_eq_true'] at h
    · simp only [allDifferent, allDifferentCount, ht, if_true, AllSt.start,
        DiffCounter.start]
      rw [allNamed_eq, countNamed_eq]
      simp only [AllSt.finish, DiffCounter.allDone, Nat.zero_add,
        length_beq_countP]
      cases fs with
      | nil => exact absurd h.1 (by simp)
      | cons f fs =>
        cases gs with
        | nil => exact absurd h.2 (by simp)
        | cons g gs => simp
  case case12 ty t1 vn fs ty2 t2 vn2 gs ht =>
    intro h
    simp [allDifferent, allDifferentCount, ht]
  case case13 ty t1 vn fs ty2 t2 vn2 gs ht =>
    intro h
    simp only [agreeOK, bne, ht, Bool.not_true, Bool.false_or,
      Bool.and_eq_true, Bool.not_eq_true'] at h
    · simp only [allDifferent, allDifferentCount, ht, if_true, AllSt.start,
        DiffCounter.start]
      rw [allPlain_eq, countPlain_eq]
      simp only [AllSt.finish, DiffCounter.allDone, Nat.zero_add,
        length_beq_countP]
      cases fs with
      | nil => exact absurd h.1 (by simp)
      | cons f fs =>
        cases gs with
        | nil => exact absurd h.2 (by simp)
        | cons g gs => simp
  case case14 ty t1 vn fs ty2 t2 vn2 gs ht =>
    intro h
    simp [allDifferent, allDifferentCount, ht]
  case case15 xs ys =>
    intro h
    simp only [agreeOK, Bool.and_eq_true, Bool.not_eq_true'] at h
    have hlen : xs.length = ys.length := by
      have := h.1
      simpa using this
    have hca : allConsiderAll AllSt.start xs ys = allSeqFold AllSt.start xs ys := by
      simp [allConsiderAll, AllSt.start]
    simp only [allDifferent, allDifferentCount] at *
    rw [hca, allSeqFold_eq, countSeqFold_eq]
    simp only [AllSt.start, AllSt.finish, DiffCounter.start,
      DiffCounter.allDone, Nat.zero_add, hlen, Nat.sub_self, Nat.add_zero,
      length_beq_countP, beq_self_eq_true, Bool.true_and, Bool.false_or]
    cases xs with
    | nil => exact absurd h.2 (by simp)
    | cons x xs =>
      cases ys with
      | nil => simp at hlen
      | cons y ys => simp
  case case16 l r =>
    intro h
    simp only [agreeOK, Bool.not_eq_true', Bool.and_eq_false_iff] at h
    simp only [allDifferent, allDifferentCount]
    rw [allMerge_eq l r AllSt.start (Or.inl rfl), countMerge_eq]
    simp only [AllSt.start, AllSt.finish, DiffCounter.start,
      DiffCounter.allDone, Nat.zero_add, length_beq_countP, Bool.true_and,
      Bool.false_or]
    have hb : (l.isEmpty && r.isEmpty) = false := by
      rcases h with h | h <;> simp [h]
    simp [hb]
  case case17 l r =>
    intro h
    simp only [agreeOK, Bool.not_eq_true', Bool.and_eq_false_iff] at h
    simp only [allDifferent, allDifferentCount]
    rw [allMerge_eq l r AllSt.start (Or.inl rfl), countMerge_eq]
    simp only [AllSt.start, AllSt.finish, DiffCounter.start,
      DiffCounter.allDone, Nat.zero_add, length_beq_countP, Bool.true_and,
      Bool.false_or]
    have hb : (l.isEmpty && r.isEmpty) = false := by
      rcases h with h | h <;> simp [h]
    simp [hb]
  case case18 t x h1 h2 h3 h4 h5 h6 h7 h8 h9 h10 h11 h12 =>
    intro _
    rw [allDifferent.eq_13 t x h1 h2 h3 h4 h5 h6 h7 h8 h9 h10 h11 h12,
      allDifferentCount.eq_13 t x h1 h2 h3 h4 h5 h6 h7 h8 h9 h10 h11 h12]
  all_goals simp_all [allDifferent, allDifferentCount]


/-! ### Reflexivity on values without NaN leaves -/

theorem sizeOf_snd_lt_of_mem {A B : Type} [SizeOf A] [SizeOf B]
    {p : A × B} {l : List (A × B)} (h : p ∈ l) : sizeOf p.2 < sizeOf l := by
  have h1 := List.sizeOf_lt_of_mem h
  obtain ⟨x, y⟩ := p
  simp at h1 ⊢
  omega

theorem anyNamed_diag (fs : List (String × DValue))
    (H : ∀ p ∈ fs, anyDifference p.2 p.2 = false) :
    anyNamed false fs fs = false := by
  induction fs with
  | nil => simp [anyNamed]
  | cons f fs ih =>
    obtain ⟨n, a⟩ := f
    have ha : anyDifference a a = false := H (n, a) (by simp)
    simp only [anyNamed, Bool.not_false, if_true, ha]
    exact ih fun p hp => H p (List.mem_cons_of_mem _ hp)

theorem anyPlain_diag (fs : List DValue)
    (H : ∀ p ∈ fs, anyDifference p p = false) :
    anyPlain false fs fs = false := by
  induction fs with
  | nil => simp [anyPlain]
  | cons a fs ih =>
    have ha : anyDifference a a = false := H a (by simp)
    simp only [anyPlain, Bool.not_false, if_true, ha]
    exact ih fun p hp => H p (List.mem_cons_of_mem _ hp)

theorem anySeqEx_diag (xs : List DValue)
    (H : ∀ p ∈ xs, anyDifference p p = false) :
    anySeqEx xs xs = false := by
  induction xs with
  | nil => simp [anySeqEx]
  | cons a xs ih =>
    have ha : anyDifference a a = false := H a (by simp)
    simp only [anySeqEx, ha, Bool.false_or]
    exact ih fun p hp => H p (List.mem_cons_of_mem _ hp)

theorem anyMerge_diag (l : List (Nat × DValue))
    (H : ∀ p ∈ l, anyDifference p.2 p.2 = false) :
    anyMerge false l l = false := by
  induction l with
  | nil => simp [anyMerge]
  | cons e l ih =>
    obtain ⟨k, v⟩ := e
    have hv : anyDifference v v = false := H (k, v) (by simp)
    simp only [anyMerge, lt_irrefl, if_false, Bool.not_false, if_true, hv]
    exact ih fun p hp => H p (List.mem_cons_of_mem _ hp)

theorem recNamed_diag (fs : List (String × DValue))
    (H : ∀ p ∈ fs, cleanTree (recordDiff p.2 p.2) = true) :
    cleanNamedR (recNamed fs fs) = true := by
  induction fs with
  | nil => simp [recNamed, cleanNamedR]
  | cons f fs ih =>
    obtain ⟨n, a⟩ := f
    have ha := H (n, a) (by simp)
    simp only [recNamed, cleanNamedR, ha, Bool.true_and]
    exact ih fun p hp => H p (List.mem_cons_of_mem _ hp)

theorem recPlain_diag (fs : List DValue)
    (H : ∀ p ∈ fs, cleanTree (recordDiff p p) = true) :
    cleanPlainR (recPlain fs fs) = true := by
  induction fs with
  | nil => simp [recPlain, cleanPlainR]
  | cons a fs ih =>
    have ha := H a (by simp)
    simp only [recPlain, cleanPlainR, ha, Bool.true_and]
    exact ih fun p hp => H p (List.mem_cons_of_mem _ hp)

theorem recSeq_diag (xs : List DValue)
    (H : ∀ p ∈ xs, cleanTree (recordDiff p p) = true) :
    cleanElems (recSeq xs xs) = true := by
  induction xs with
  | nil => simp [recSeq, cleanElems]
  | cons a xs ih =>
    have ha := H a (by simp)
    simp only [recSeq, cleanElems, ha, Bool.true_and]
    exact ih fun p hp => H p (List.mem_cons_of_mem _ hp)

theorem recMapMerge_diag (l : List (Nat × DValue))
    (H : ∀ p ∈ l, cleanTree (recordDiff p.2 p.2) = true) :
    cleanEntriesR (recMapMerge l l) = true := by
  induction l with
  | nil => simp [recMapMerge, cleanEntriesR]
  | cons e l ih =>
    obtain ⟨k, v⟩ := e
    have hv := H (k, v) (by simp)
    simp only [recMapMerge, lt_irrefl, if_false, cleanEntriesR, hv,
      Bool.true_and]
    exact ih fun p hp => H p (List.mem_cons_of_mem _ hp)

theorem recSetMerge_diag (l : List (Nat × DValue))
    (H : ∀ p ∈ l, cleanTree (recordDiff p.2 p.2) = true) :
    cleanElems (recSetMerge l l) = true := by
  induction l with
  | nil => simp [recSetMerge, cleanElems]
  | cons e l ih =>
    obtain ⟨k, v⟩ := e
    have hv := H (k, v) (by simp)
    simp only [recSetMerge, lt_irrefl, if_false, cleanElems, hv,
      Bool.true_and]
    exact ih fun p hp => H p (List.mem_cons_of_mem _ hp)

theorem selfEqNamed_mem :
    ∀ (fs : List (String × DValue)), selfEqNamed fs = true →
      ∀ p ∈ fs, selfEqLeaves p.2 = true := by
  intro fs
  induction fs with
  | nil => intro _ p hp; simp at hp
  | cons f fs ih =>
    intro hse p hp
    obtain ⟨n, v⟩ := f
    simp only [selfEqNamed, Bool.and_eq_true] at hse
    rcases List.mem_cons.mp hp with hp | hp
    · rw [hp]; exact hse.1
    · exact ih hse.2 p hp

theorem selfEqPlain_mem :
    ∀ (fs : List DValue), selfEqPlain fs = true →
      ∀ p ∈ fs, selfEqLeaves p = true := by
  intro fs
  induction fs with
  | nil => intro _ p hp; simp at hp
  | cons f fs ih =>
    intro hse p hp
    simp only [selfEqPlain, Bool.and_eq_true] at hse
    rcases List.mem_cons.mp hp with hp | hp
    · rw [hp]; exact hse.1
    · exact ih hse.2 p hp

theorem selfEqEntries_mem :
    ∀ (es : List (Nat × DValue)), selfEqEntries es = true →
      ∀ p ∈ es, selfEqLeaves p.2 = true := by
  intro es
  induction es with
  | nil => intro _ p hp; simp at hp
  | cons f es ih =>
    intro hse p hp
    obtain ⟨k, v⟩ := f
    simp only [selfEqEntries, Bool.and_eq_true] at hse
    rcases List.mem_cons.mp hp with hp | hp
    · rw [hp]; exact hse.1
    · exact ih hse.2 p hp

theorem refl_helper :
    ∀ (v : DValue), selfEqLeaves v = true →
      anyDifference v v = false ∧ cleanTree (recordDiff v v) = true := by
  have main : ∀ (n : Nat) (v : DValue), sizeOf v ≤ n →
      selfEqLeaves v = true →
      anyDifference v v = false ∧ cleanTree (recordDiff v v) = true := by
    intro n
    induction n with
    | zero =>
      intro v hv
      cases v <;> simp at hv
    | succ n ih =>
      intro v hv hse
      cases v with
      | atom k e t =>
        simp only [selfEqLeaves] at hse
        simp [anyDifference, recordDiff, cleanTree, atomEqb, hse]
      | unitV => simp [anyDifference, recordDiff, cleanTree]
      | ptr a p => simp [anyDifference, recordDiff, cleanTree]
      | newtype nm v =>
        simp only [selfEqLeaves] at hse
        have hsz : sizeOf v ≤ n := by
          simp only [DValue.newtype.sizeOf_spec] at hv
          omega
        have := ih v hsz hse
        simp [anyDifference, recordDiff, cleanTree, this.1, this.2]
      | structV nm fs =>
        simp only [selfEqLeaves] at hse
        have hmem : ∀ p ∈ fs, anyDifference p.2 p.2 = false ∧
            cleanTree (recordDiff p.2 p.2) = true := by
          intro p hp
          apply ih
          · have h1 := sizeOf_snd_lt_of_mem hp
            simp only [DValue.structV.sizeOf_spec] at hv
            omega
          · exact selfEqNamed_mem fs hse p hp
        constructor
        · simp only [anyDifference]
          exact anyNamed_diag fs fun p hp => (hmem p hp).1
        · simp only [recordDiff, cleanTree]
          exact recNamed_diag fs fun p hp => (hmem p hp).2
      | tupleV nm fs =>
        simp only [selfEqLeaves] at hse
        have hmem : ∀ p ∈ fs, anyDifference p p = false ∧
            cleanTree (recordDiff p p) = true := by
          intro p hp
          apply ih
          · have h1 := List.sizeOf_lt_of_mem hp
            simp only [DValue.tupleV.sizeOf_spec] at hv
            omega
          · exact selfEqPlain_mem fs hse p hp
        constructor
        · simp only [anyDifference]
          exact anyPlain_diag fs fun p hp => (hmem p hp).1
        · simp only [recordDiff, cleanTree]
          exact recPlain_diag fs fun p hp => (hmem p hp).2
      | enumUnitV ty tg vn =>
        simp [anyDifference, recordDiff, cleanTree]
      | enumStructV ty tg vn fs =>
        simp only [selfEqLeaves] at hse
        have hmem : ∀ p ∈ fs, anyDifference p.2 p.2 = false ∧
            cleanTree (recordDiff p.2 p.2) = true := by
          intro p hp
          apply ih
          · have h1 := sizeOf_snd_lt_of_mem hp
            simp only [DValue.enumStructV.sizeOf_spec] at hv
            omega
          · exact selfEqNamed_mem fs hse p hp
        constructor
        · simp only [anyDifference, beq_self_eq_true, if_true]
          exact anyNamed_diag fs fun p hp => (hmem p hp).1
        · simp only [recordDiff, cleanTree, beq_self_eq_true, if_true]
          exact recNamed_diag fs fun p hp => (hmem p hp).2
      | enumTupleV ty tg vn fs =>
        simp only [selfEqLeaves] at hse
        have hmem : ∀ p ∈ fs, anyDifference p p = false ∧
            cleanTree (recordDiff p p) = true := by
          intro p hp
          apply ih
          · have h1 := List.sizeOf_lt_of_mem hp
            simp only [DValue.enumTupleV.sizeOf_spec] at hv
            omega
          · exact selfEqPlain_mem fs hse p hp
        constructor
        · simp only [anyDifference, beq_self_eq_true, if_true]
          exact anyPlain_diag fs fun p hp => (hmem p hp).1
        · simp only [recordDiff, cleanTree, beq_self_eq_true, if_true]
          exact recPlain_diag fs fun p hp => (hmem p hp).2
      | seqV xs =>
        simp only [selfEqLeaves] at hse
        have hmem : ∀ p ∈ xs, anyDifference p p = false ∧
            cleanTree (recordDiff p p) = true := by
          intro p hp
          apply ih
          · have h1 := List.sizeOf_lt_of_mem hp
            simp only [DValue.seqV.sizeOf_spec] at hv
            omega
          · exact selfEqPlain_mem xs hse p hp
        constructor
        · simp only [anyDifference]
          exact anySeqEx_diag xs fun p hp => (hmem p hp).1
        · simp only [recordDiff, cleanTree]
          exact recSeq_diag xs fun p hp => (hmem p hp).2
      | mapV es =>
        simp only [selfEqLeaves] at hse
        have hmem : ∀ p ∈ es, anyDifference p.2 p.2 = false ∧
            cleanTree (recordDiff p.2 p.2) = true := by
          intro p hp
          apply ih
          · have h1 := sizeOf_snd_lt_of_mem hp
            simp only [DValue.mapV.sizeOf_spec] at hv
            omega
          · exact selfEqEntries_mem es hse p hp
        constructor
        · simp only [anyDifference]
          exact anyMerge_diag es fun p hp => (hmem p hp).1
        · simp only [recordDiff, cleanTree]
          exact recMapMerge_diag es fun p hp => (hmem p hp).2
      | setV es =>
        simp only [selfEqLeaves] at hse
        have hmem : ∀ p ∈ es, anyDifference p.2 p.2 = false ∧
            cleanTree (recordDiff p.2 p.2) = true := by
          intro p hp
          apply ih
          · have h1 := sizeOf_snd_lt_of_mem hp
            simp only [DValue.setV.sizeOf_spec] at hv
            omega
          · exact selfEqEntries_mem es hse p hp
        constructor
        · simp only [anyDifference]
          exact anyMerge_diag es fun p hp => (hmem p hp).1
        · simp only [recordDiff, cleanTree]
          exact recSetMerge_diag es fun p hp => (hmem p hp).2
  intro v
  exact main (sizeOf v) v (Nat.le_refl _)


/-! ### Claim theorems -/

/-- C1: the spec says an excess sequence/set/map entry counts as a differing
top-level part, so `all_different(&[x][..], &[][..])` should be `true`.  The
code disagrees for sequences: the fold in `All::consider_all` (detect.rs
lines 153-174) maps an excess element to `All { all: false, any: true }`,
forcing the result to `false`; the same excess event reported through
`left_excess` → `All::diff`, through the map/set paths, or through the
counting implementation in detect_all.rs does count as differing.  This
theorem evaluates the embedding at the failing input and at the map
counterpart. -/
theorem c1_seq_excess_all_different_eval :
    allDifferent (.seqV [boolV true]) (.seqV []) = false ∧
    allDifferentCount (.seqV [boolV true]) (.seqV []) = true ∧
    anyDifference (.seqV [boolV true]) (.seqV []) = true ∧
    allDifferent (.mapV [(0, boolV true)]) (.mapV []) = true := by
  refine ⟨?_, ?_, ?_, ?_⟩
  · simp [allDifferent, allConsiderAll, allSeqFold, AllSt.start, AllSt.finish]
  · simp [allDifferentCount, countSeqFold, DiffCounter.start,
      DiffCounter.diffStep, DiffCounter.allDone]
  · simp [anyDifference, anySeqEx]
  · simp [allDifferent, allMerge, AllSt.start, AllSt.finish, AllSt.diffStep]

/-- C2 counterexample: the two `all_different` implementations do not return
the same boolean for every pair — on two empty slices the short-circuiting
accumulator of detect.rs yields `false` (vacuous-truth guard) while the
counting version of detect_all.rs yields `true` (`0 == 0`). -/
theorem c2_counterexample_empty_seq :
    allDifferent (.seqV []) (.seqV []) = false ∧
    allDifferentCount (.seqV []) (.seqV []) = true := by
  constructor
  · simp [allDifferent, allConsiderAll, allSeqFold, AllSt.start, AllSt.finish]
  · simp [allDifferentCount, countSeqFold, DiffCounter.start,
      DiffCounter.allDone]

/-- C2 (amended): the two `all_different` implementations agree on every
pair whose top-level composite (through newtype wrappers and matching enum
variants) observes at least one part and whose sequence comparison has no
excess element; they disagree on empty composites (accumulator `false`,
counter `true`) and can disagree on sequences with excess elements. -/
theorem c2_implementations_agree (a b : DValue) (h : agreeOK a b = true) :
    allDifferent a b = allDifferentCount a b :=
  agree_helper a b h

/-- C2 witness: the agreement theorem applied at a one-field struct pair. -/
theorem c2_implementations_agree_witness :
    agreeOK (.structV "S" [("a", boolV true)])
        (.structV "S" [("a", boolV false)]) = true ∧
    allDifferent (.structV "S" [("a", boolV true)])
        (.structV "S" [("a", boolV false)]) =
      allDifferentCount (.structV "S" [("a", boolV true)])
        (.structV "S" [("a", boolV false)]) :=
  ⟨by simp [agreeOK], c2_implementations_agree _ _ (by simp [agreeOK])⟩

/-- C3 counterexample: reflexivity fails on the code for `f32`/`f64` NaN,
whose built-in `Diff` impl goes through `PartialEq`: `NaN != NaN`, so
`any_difference(&f32::NAN, &f32::NAN) == true`, not `false` as the claim
demands for every comparable value. -/
theorem c3_counterexample_nan :
    anyDifference nanV nanV = true := by
  simp [anyDifference, nanV, atomEqb]

/-- C3 (amended): for every comparable value all of whose atomic leaves are
self-equal under `PartialEq` (which excludes exactly the `f32`/`f64` NaN
values), `any_difference(v, v) == false`. -/
theorem c3_any_difference_reflexive (v : DValue)
    (h : selfEqLeaves v = true) : anyDifference v v = false :=
  (refl_helper v h).1

/-- C3 witness: reflexivity at a concrete two-field struct. -/
theorem c3_any_difference_reflexive_witness :
    selfEqLeaves (.structV "TestStruct"
        [("distance", natV 12), ("silly", boolV false)]) = true ∧
    anyDifference
        (.structV "TestStruct" [("distance", natV 12), ("silly", boolV false)])
        (.structV "TestStruct" [("distance", natV 12), ("silly", boolV false)]) =
      false :=
  ⟨by simp [selfEqLeaves, selfEqNamed, natV, boolV],
    c3_any_difference_reflexive _
      (by simp [selfEqLeaves, selfEqNamed, natV, boolV])⟩

/-- C4 counterexample: `record_diff(&f32::NAN, &f32::NAN)` is a
`Difference` leaf (the atom impl reports `difference` because
`NaN != NaN`), so the recorded tree is not free of `Difference` leaves for
every value `v`. -/
theorem c4_counterexample_nan :
    recordDiff nanV nanV = .difference "NaN" "NaN" ∧
    cleanTree (recordDiff nanV nanV) = false := by
  constructor
  · simp [recordDiff, nanV, atomEqb]
  · simp [recordDiff, nanV, atomEqb, cleanTree]

/-- C4 (amended): for every comparable value all of whose atomic leaves are
self-equal under `PartialEq`, `record_diff(v, v)` yields a tree with no
`Difference` leaf and no `LeftOnly`/`RightOnly` element anywhere. -/
theorem c4_record_diff_idempotent (v : DValue)
    (h : selfEqLeaves v = true) : cleanTree (recordDiff v v) = true :=
  (refl_helper v h).2

/-- C4 witness: idempotence at a concrete sequence value. -/
theorem c4_record_diff_idempotent_witness :
    selfEqLeaves (.seqV [natV 1, natV 2]) = true ∧
    cleanTree (recordDiff (.seqV [natV 1, natV 2])
      (.seqV [natV 1, natV 2])) = true :=
  ⟨by simp [selfEqLeaves, selfEqPlain, natV],
    c4_record_diff_idempotent _ (by simp [selfEqLeaves, selfEqPlain, natV])⟩

/-- C5: `all_different(a, b) == true` implies `any_difference(a, b) == true`
for every pair, and the converse fails: a two-field tuple with one equal and
one differing field has `any_difference == true` but `all_different ==
false`. -/
theorem c5_all_implies_any :
    (∀ a b : DValue, allDifferent a b = true → anyDifference a b = true) ∧
    anyDifference (.tupleV "" [boolV true, boolV true])
        (.tupleV "" [boolV true, boolV false]) = true ∧
    allDifferent (.tupleV "" [boolV true, boolV true])
        (.tupleV "" [boolV true, boolV false]) = false := by
  refine ⟨all_imp_any, ?_, ?_⟩
  · simp [anyDifference, anyPlain, boolV, atomEqb]
  · simp [allDifferent, allPlain, AllSt.start, AllSt.consider, AllSt.finish,
      anyDifference, boolV, atomEqb]

/-- C5 witness: the implication applied at a differing pair of atoms. -/
theorem c5_all_implies_any_witness :
    anyDifference (boolV true) (boolV false) = true :=
  c5_all_implies_any.1 (boolV true) (boolV false)
    (by simp [allDifferent, boolV, atomEqb])

/-- C6: `all_different` is false on composites with zero observed parts
(unit structs, empty tuples, empty sequences, empty maps/sets), and false as
soon as one observed top-level part is equal (a matched struct field, a
matched sequence position, or a shared map key with equal values). -/
theorem c6_all_different_vacuous_or_equal_part :
    (∀ n m : String, allDifferent (.structV n []) (.structV m []) = false) ∧
    (∀ n m : String, allDifferent (.tupleV n []) (.tupleV m []) = false) ∧
    allDifferent (.seqV []) (.seqV []) = false ∧
    allDifferent (.mapV []) (.mapV []) = false ∧
    allDifferent (.setV []) (.setV []) = false ∧
    (∀ (n m : String) (fs gs : List (String × DValue)),
      (∃ p ∈ fs.zip gs, anyDifference p.1.2 p.2.2 = false) →
      allDifferent (.structV n fs) (.structV m gs) = false) ∧
    (∀ xs ys : List DValue,
      (∃ p ∈ xs.zip ys, anyDifference p.1 p.2 = false) →
      allDifferent (.seqV xs) (.seqV ys) = false) ∧
    (∀ l r : List (Nat × DValue),
      (∃ e ∈ mergeJoinBy l r, evDiff e = false) →
      allDifferent (.mapV l) (.mapV r) = false) := by
  refine ⟨?_, ?_, ?_, ?_, ?_, ?_, ?_, ?_⟩
  · intro n m
    simp [allDifferent, allNamed, AllSt.start, AllSt.finish]
  · intro n m
    simp [allDifferent, allPlain, AllSt.start, AllSt.finish]
  · simp [allDifferent, allConsiderAll, allSeqFold, AllSt.start, AllSt.finish]
  · simp [allDifferent, allMerge, AllSt.start, AllSt.finish]
  · simp [allDifferent, allMerge, AllSt.start, AllSt.finish]
  · intro n m fs gs hex
    have hall : ((fs.zip gs).all fun p => anyDifference p.1.2 p.2.2) = false := by
      rcases hex with ⟨p, hp, hfalse⟩
      rcases hb : (fs.zip gs).all fun p => anyDifference p.1.2 p.2.2 with _ | _
      · rfl
      · have := List.all_eq_true.mp hb p hp
        rw [hfalse] at this
        exact absurd this (by simp)
    simp only [allDifferent, AllSt.start]
    rw [allNamed_eq]
    simp [AllSt.finish, hall]
  · intro xs ys hex
    have hall : ((xs.zip ys).all fun p => anyDifference p.1 p.2) = false := by
      rcases hex with ⟨p, hp, hfalse⟩
      rcases hb : (xs.zip ys).all fun p => anyDifference p.1 p.2 with _ | _
      · rfl
      · have := List.all_eq_true.mp hb p hp
        rw [hfalse] at this
        exact absurd this (by simp)
    have hca : allConsiderAll AllSt.start xs ys = allSeqFold AllSt.start xs ys := by
      simp [allConsiderAll, AllSt.start]
    simp only [allDifferent]
    rw [hca, allSeqFold_eq]
    simp [AllSt.start, AllSt.finish, hall]
  · intro l r hex
    have hall : ((mergeJoinBy l r).all evDiff) = false := by
      rcases hex with ⟨e, he, hfalse⟩
      rcases hb : (mergeJoinBy l r).all evDiff with _ | _
      · rfl
      · have := List.all_eq_true.mp hb e he
        rw [hfalse] at this
        exact absurd this (by simp)
    simp only [allDifferent]
    rw [allMerge_eq l r AllSt.start (Or.inl rfl)]
    simp [AllSt.start, AllSt.finish, hall]

/-- C6 witness: a struct with one equal and one differing field (the
`all_one_field_false` scenario) yields `all_different == false`. -/
theorem c6_witness :
    allDifferent
      (.structV "TestStruct" [("distance", natV 12), ("silly", boolV false)])
      (.structV "TestStruct" [("distance", natV 10), ("silly", boolV false)]) =
    false :=
  c6_all_different_vacuous_or_equal_part.2.2.2.2.2.1 "TestStruct" "TestStruct"
    _ _
    ⟨(("silly", boolV false), ("silly", boolV false)), by simp,
      by simp [anyDifference, boolV, atomEqb]⟩

/-- C7: recording the diff of the ordered maps `{0: true, 2: false}` and
`{0: false, 1: false}` walks the merge-join in ascending key order and
reports key 0 as a differing entry, key 1 as right-only, key 2 as
left-only — exactly in that order. -/
theorem c7_btreemap_merge_example :
    recordDiff (.mapV [(0, boolV true), (2, boolV false)])
        (.mapV [(0, boolV false), (1, boolV false)]) =
      .mapR [("0", .both (.difference "true" "false")),
             ("1", .rightOnly "false"),
             ("2", .leftOnly "false")] := by
  simp [recordDiff, recMapMerge, boolV, atomEqb, reprD, Nat.repr,
    Nat.toDigits, Nat.toDigitsCore]
  decide

/-- C8: when two enum values use different variants (different
discriminants), the recorder produces a single top-level `Difference` leaf
holding both whole values' `Debug` text; no struct/tuple sub-visitor result
appears in the output. -/
theorem c8_enum_cross_variant (a b : DValue) (ta tb : Nat)
    (ha : enumTag a = some ta) (hb : enumTag b = some tb) (hne : ta ≠ tb) :
    recordDiff a b = .difference (reprD a) (reprD b) := by
  cases a <;> cases b <;> simp [enumTag] at ha hb <;>
    (rw [← ha, ← hb] at hne; simp [recordDiff, reprD, hne])

/-- C8 witness: unit variant `A` against struct variant `B { size: 12 }` of
one enum type yields the top-level `Difference` leaf over both whole
values. -/
theorem c8_enum_cross_variant_witness :
    recordDiff (.enumUnitV "TestEnum" 0 "A")
        (.enumStructV "TestEnum" 1 "B" [("size", natV 12)]) =
      .difference "A" "B { size: 12 }" := by
  have h := c8_enum_cross_variant (.enumUnitV "TestEnum" 0 "A")
    (.enumStructV "TestEnum" 1 "B" [("size", natV 12)]) 0 1
    (by simp [enumTag]) (by simp [enumTag]) (by decide)
  rw [h]
  simp [reprD, reprNamed, natV, Nat.repr, Nat.toDigits, Nat.toDigitsCore]
  decide

/-- C9: the detector and recorder consumers declare the uninhabited `Void`
as their error type, so their results are always `Ok`: no input can make
`any_difference`, `all_different` or `record_diff` fail. -/
theorem c9_detectors_and_recorder_infallible :
    IsEmpty RustVoid ∧
    (∀ (A : Type) (r : Except RustVoid A), r = .ok (voidUnwrap r)) ∧
    (∀ a b : DValue,
      anyDifferenceResult a b = .ok (anyDifference a b) ∧
      allDifferentResult a b = .ok (allDifferent a b) ∧
      recordDiffResult a b = .ok (recordDiff a b)) := by
  refine ⟨⟨fun hv => nomatch hv⟩, ?_, ?_⟩
  · intro A r
    cases r with
    | ok x => rfl
    | error e => exact nomatch e
  · intro a b
    exact ⟨rfl, rfl, rfl⟩

/-- C10: raw pointers are compared by address only: the diff is `Same`
exactly when the two addresses are equal and `Difference` otherwise, and the
result does not depend on the pointees (they are never traversed). -/
theorem c10_pointers_by_address (a1 a2 : Nat) (p1 p2 : DValue) :
    recordDiff (.ptr a1 p1) (.ptr a2 p2) =
      (if a1 = a2 then RValue.same (ptrText a1) (ptrText a2)
       else RValue.difference (ptrText a1) (ptrText a2)) ∧
    anyDifference (.ptr a1 p1) (.ptr a2 p2) = !(a1 == a2) := by
  constructor
  · by_cases h : a1 = a2 <;> simp [recordDiff, h]
  · by_cases h : a1 = a2 <;> simp [anyDifference, h]


end VisitRust
